import Mathlib

/-!
# Verification of the Fermi-surface reconstruction core

Shallow embedding of the Fermi-surface pipeline of the `reciprocal`
repository (k-point symmetry expansion, grid interpolation, Wien2k file
parsers, Fermi shift, band-crossing filter, isosurface extraction) and
proofs of the specification's testable properties.

Modelling conventions:
* JavaScript numbers are modelled as exact rationals (`ℚ`); where a
  computation can produce `NaN` (e.g. `parseFloat` of a malformed token)
  the value is modelled as `Option ℚ`, with `none` standing for `NaN`.
* JavaScript `%` on integers is truncated remainder (`Int.tmod`).
* The `while` loops of `wrapToBZ` are embedded as fuel-indexed recursions
  with a proven-sufficient fuel bound; stability lemmas show the result is
  independent of the bound once it is large enough, so the embedding
  computes exactly the loop's limit.
-/

/- The four `Rat` field operations are `@[irreducible]` in the library,
which blocks `decide`-style evaluation of concrete rational computations;
re-tag them (locally) so concrete instances of the definitions below can be
evaluated.  This is elaboration-only: kernel checking is unaffected. -/
attribute [local semireducible] Rat.add Rat.mul Rat.inv Rat.sub

/-! ## Scalar wrap loops (`wrapToBZ`, src/lib/kpointSymmetry.ts lines 34-47) -/

/-- The loop `while (result >= 0.5) result -= 1.0;`, run for at most `n`
iterations.  With sufficient fuel this is exactly the source loop. -/
def wrapDownF : ℕ → ℚ → ℚ
  | 0, x => x
  | n + 1, x => if 1/2 ≤ x then wrapDownF n (x - 1) else x

/-- The loop `while (result < -0.5) result += 1.0;`, run for at most `n`
iterations. -/
def wrapUpF : ℕ → ℚ → ℚ
  | 0, x => x
  | n + 1, x => if x < -(1/2) then wrapUpF n (x + 1) else x

/-- Fuel that suffices for the first `wrapToBZ` loop to reach its exit
condition, starting from `x`. -/
def downFuel (x : ℚ) : ℕ := (⌈x⌉ + 1).toNat

/-- Fuel that suffices for the second `wrapToBZ` loop to reach its exit
condition, starting from `x`. -/
def upFuel (x : ℚ) : ℕ := (⌈-x⌉ + 1).toNat

/-- Scalar body of `wrapToBZ`: run the `-= 1` loop to completion, then the
`+= 1` loop to completion. -/
def wrapScalar (x : ℚ) : ℚ :=
  wrapUpF (upFuel (wrapDownF (downFuel x) x)) (wrapDownF (downFuel x) x)

/-- A point of reciprocal space in fractional coordinates
(`{ kx, ky, kz }` objects of the source). -/
@[ext] structure KVec where
  kx : ℚ
  ky : ℚ
  kz : ℚ
  deriving DecidableEq, Repr

/-- `wrapToBZ` (src/lib/kpointSymmetry.ts): wrap a k-point back to the first
Brillouin zone `[-0.5, 0.5)`, component-wise. -/
def wrapToBZ (k : KVec) : KVec :=
  { kx := wrapScalar k.kx, ky := wrapScalar k.ky, kz := wrapScalar k.kz }

/-! ## Fueled observation of the wrap loops (for the termination claim)

`wrapDownOE`/`wrapUpOE` run the two `wrapToBZ` loops for at most `n`
iterations and report `none` when the loop has not yet reached its exit
condition — so `∃ n, … = some r` states that the loop terminates.  They act
on `ExtQ`, rationals extended with the IEEE value `Infinity` (for which
`Infinity >= 0.5` is true and `Infinity - 1 = Infinity`, as in JS). -/

/-- A JS number that is either a finite value (modelled exactly as a
rational) or `Infinity`. -/
inductive ExtQ where
  | fin (q : ℚ)
  | inf
  deriving DecidableEq, Repr

/-- `x - 1.0` on finite-or-infinite values. -/
def ExtQ.subOne : ExtQ → ExtQ
  | fin q => fin (q - 1)
  | inf => inf

/-- `x + 1.0` on finite-or-infinite values. -/
def ExtQ.addOne : ExtQ → ExtQ
  | fin q => fin (q + 1)
  | inf => inf

/-- The loop condition `result >= 0.5`. -/
def ExtQ.geHalf : ExtQ → Bool
  | fin q => decide (1/2 ≤ q)
  | inf => true

/-- The loop condition `result < -0.5`. -/
def ExtQ.ltNegHalf : ExtQ → Bool
  | fin q => decide (q < -(1/2))
  | inf => false

/-- At most `n` iterations of `while (result >= 0.5) result -= 1.0;`
`none` means the loop is still running after `n` iterations. -/
def wrapDownOE : ℕ → ExtQ → Option ExtQ
  | 0, x => if x.geHalf then none else some x
  | n + 1, x => if x.geHalf then wrapDownOE n x.subOne else some x

/-- At most `n` iterations of `while (result < -0.5) result += 1.0`. -/
def wrapUpOE : ℕ → ExtQ → Option ExtQ
  | 0, x => if x.ltNegHalf then none else some x
  | n + 1, x => if x.ltNegHalf then wrapUpOE n x.addOne else some x

/-- Both loops of the scalar `wrap`, each bounded by `n` iterations. -/
def wrapOE (n : ℕ) (x : ExtQ) : Option ExtQ :=
  (wrapDownOE n x).bind (wrapUpOE n)

/-! ## Symmetry expansion (src/lib/kpointSymmetry.ts) -/

/-- An irreducible k-point (src/lib/wien2kFermiParser.ts `IrreducibleKPoint`):
fractional coordinates, multiplicity weight, per-band energies in eV. -/
structure IrreducibleKPoint where
  kx : ℚ
  ky : ℚ
  kz : ℚ
  weight : ℚ
  energies : List ℚ
  deriving DecidableEq, Repr

/-- A k-point expanded to the full Brillouin zone
(src/lib/kpointSymmetry.ts `ExpandedKPoint`). -/
structure ExpandedKPoint where
  kx : ℚ
  ky : ℚ
  kz : ℚ
  weight : ℚ
  energies : List ℚ
  originalIndex : ℕ
  deriving DecidableEq, Repr

/-- A symmetry operation (`SymmetryMatrix`): a 3×3 rotation matrix (stored
as rows, as the source's `number[][]`) and a translation vector. -/
structure SymmetryMatrix where
  rotation : List (List ℚ)
  translation : List ℚ
  deriving DecidableEq, Repr

/-- Entry `R[i][j]` of a rotation matrix; the source indexes a 3×3 array
directly, so the default is never read for well-formed matrices. -/
def rotEntry (R : List (List ℚ)) (i j : ℕ) : ℚ :=
  (R.getD i []).getD j 0

/-- The 3×3 identity rotation. -/
def identityRotation : List (List ℚ) :=
  [[1, 0, 0], [0, 1, 0], [0, 0, 1]]

/-- `applySymmetryToKPoint`: `k' = R * k` (translations are ignored in
reciprocal space). -/
def applySymmetryToKPoint (k : KVec) (symOp : SymmetryMatrix) : KVec :=
  let R := symOp.rotation
  { kx := rotEntry R 0 0 * k.kx + rotEntry R 0 1 * k.ky + rotEntry R 0 2 * k.kz
    ky := rotEntry R 1 0 * k.kx + rotEntry R 1 1 * k.ky + rotEntry R 1 2 * k.kz
    kz := rotEntry R 2 0 * k.kx + rotEntry R 2 1 * k.ky + rotEntry R 2 2 * k.kz }

/-- `kPointsEquivalent`: wrap both points, then compare per axis with the
periodic distance `min |Δ| (1 - |Δ|)` against the tolerance. -/
def kPointsEquivalent (k1 k2 : KVec) (tolerance : ℚ) : Bool :=
  let w1 := wrapToBZ k1
  let w2 := wrapToBZ k2
  let dx := |w1.kx - w2.kx|
  let dy := |w1.ky - w2.ky|
  let dz := |w1.kz - w2.kz|
  let dxPeriodic := min dx (1 - dx)
  let dyPeriodic := min dy (1 - dy)
  let dzPeriodic := min dz (1 - dz)
  decide (dxPeriodic < tolerance) && decide (dyPeriodic < tolerance) &&
    decide (dzPeriodic < tolerance)

/-- Mutable state of `expandToFullBZ`'s loops: the `expandedPoints` and
`seenPoints` arrays. -/
structure ExpandState where
  expanded : List ExpandedKPoint
  seen : List KVec
  deriving DecidableEq, Repr

/-- Body of the inner `for (const symOp of symmetryOps)` loop of
`expandToFullBZ`. -/
def expandStep (tolerance : ℚ) (origIdx : ℕ) (kp : IrreducibleKPoint)
    (st : ExpandState) (symOp : SymmetryMatrix) : ExpandState :=
  let rotatedK := applySymmetryToKPoint ⟨kp.kx, kp.ky, kp.kz⟩ symOp
  let wrappedK := wrapToBZ rotatedK
  if st.seen.any (fun seen => kPointsEquivalent wrappedK seen tolerance) then st
  else
    { expanded := st.expanded ++
        [{ kx := wrappedK.kx, ky := wrappedK.ky, kz := wrappedK.kz,
           weight := 1, energies := kp.energies, originalIndex := origIdx }]
      seen := st.seen ++ [wrappedK] }

/-- Outer `for (let origIdx = …)` loop of `expandToFullBZ`. -/
def expandOuter (symmetryOps : List SymmetryMatrix) (tolerance : ℚ) :
    ℕ → List IrreducibleKPoint → ExpandState → ExpandState
  | _, [], st => st
  | origIdx, kp :: rest, st =>
      expandOuter symmetryOps tolerance (origIdx + 1) rest
        (symmetryOps.foldl (expandStep tolerance origIdx kp) st)

/-- `expandToFullBZ` (src/lib/kpointSymmetry.ts lines 77-117). -/
def expandToFullBZ (irreducibleKPoints : List IrreducibleKPoint)
    (symmetryOps : List SymmetryMatrix) (tolerance : ℚ := 1/1000000) :
    List ExpandedKPoint :=
  (expandOuter symmetryOps tolerance 0 irreducibleKPoints ⟨[], []⟩).expanded

/-! ## Trilinear interpolation cube (src/lib/kpointSymmetry.ts lines 221-270) -/

/-- The lookup `Map<string, ExpandedKPoint>` keyed by `"ix,iy,iz"`; the key
string is injective on integer triples, so it is modelled as the triple.
First insertion wins (the source only `set`s absent keys), matching
`List.lookup` returning the first binding. -/
abbrev KPLookup := List ((ℤ × ℤ × ℤ) × ExpandedKPoint)

/-- `findInterpolationCube`: the 8 cube corners around a query point
(periodic `%` on each axis, JS `%` = truncated remainder) and the standard
trilinear weights.  Corner order is the source's push order
(dz outer, dy middle, dx inner). -/
def findInterpolationCube (kx ky kz : ℚ) (kpLookup : KPLookup)
    (gridSize : ℤ) : List (Option ExpandedKPoint) × List ℚ :=
  let gx := (kx + 1/2) * gridSize
  let gy := (ky + 1/2) * gridSize
  let gz := (kz + 1/2) * gridSize
  let ix0 : ℤ := ⌊gx⌋
  let iy0 : ℤ := ⌊gy⌋
  let iz0 : ℤ := ⌊gz⌋
  let fx : ℚ := gx - ix0
  let fy : ℚ := gy - iy0
  let fz : ℚ := gz - iz0
  let corner := fun (dx dy dz : ℤ) =>
    kpLookup.lookup ((ix0 + dx).tmod gridSize, (iy0 + dy).tmod gridSize,
      (iz0 + dz).tmod gridSize)
  let corners := [corner 0 0 0, corner 1 0 0, corner 0 1 0, corner 1 1 0,
    corner 0 0 1, corner 1 0 1, corner 0 1 1, corner 1 1 1]
  let weights := [(1 - fx) * (1 - fy) * (1 - fz), fx * (1 - fy) * (1 - fz),
    (1 - fx) * fy * (1 - fz), fx * fy * (1 - fz), (1 - fx) * (1 - fy) * fz,
    fx * (1 - fy) * fz, (1 - fx) * fy * fz, fx * fy * fz]
  (corners, weights)

/-! ## Energy grid (gridInterpolation, src/unnamed/part_007) -/

/-- `EnergyGrid`: dimensions, one flat value array per band (ordered
`ix + iy*nx + iz*nx*ny`), and the Fermi energy. -/
structure EnergyGrid where
  nx : ℕ
  ny : ℕ
  nz : ℕ
  data : List (List ℚ)
  fermiEnergy : ℚ
  deriving DecidableEq, Repr

/-- `getGridValue`: read one cell with periodic boundary handling
`((i % n) + n) % n` (JS `%` = `Int.tmod`).  `none` models the JS
`undefined`/`NaN` outcomes: a zero dimension makes `i % 0` evaluate to
`NaN` and the array read yield `undefined`, and an out-of-range index reads
`undefined`. -/
def getGridValue (grid : EnergyGrid) (bandArrayIndex : ℕ)
    (ix iy iz : ℤ) : Option ℚ :=
  if grid.nx = 0 ∨ grid.ny = 0 ∨ grid.nz = 0 then none
  else
    let px := ((ix.tmod grid.nx) + grid.nx).tmod grid.nx
    let py := ((iy.tmod grid.ny) + grid.ny).tmod grid.ny
    let pz := ((iz.tmod grid.nz) + grid.nz).tmod grid.nz
    let idx := px + py * grid.nx + pz * grid.nx * grid.ny
    if 0 ≤ idx then
      (grid.data.get? bandArrayIndex).bind (fun arr => arr.get? idx.toNat)
    else none

/-- `sampleGridEnergy`: trilinear interpolation on the grid at an arbitrary
k-point.  In JS an `undefined` corner poisons the arithmetic to `NaN`;
here the `Option` bind propagates `none` identically. -/
def sampleGridEnergy (grid : EnergyGrid) (bandArrayIndex : ℕ)
    (kx ky kz : ℚ) : Option ℚ := do
  let gx := (kx + 1/2) * grid.nx
  let gy := (ky + 1/2) * grid.ny
  let gz := (kz + 1/2) * grid.nz
  let ix0 : ℤ := ⌊gx⌋
  let iy0 : ℤ := ⌊gy⌋
  let iz0 : ℤ := ⌊gz⌋
  let fx : ℚ := gx - ix0
  let fy : ℚ := gy - iy0
  let fz : ℚ := gz - iz0
  let v000 ← getGridValue grid bandArrayIndex ix0 iy0 iz0
  let v100 ← getGridValue grid bandArrayIndex (ix0 + 1) iy0 iz0
  let v010 ← getGridValue grid bandArrayIndex ix0 (iy0 + 1) iz0
  let v110 ← getGridValue grid bandArrayIndex (ix0 + 1) (iy0 + 1) iz0
  let v001 ← getGridValue grid bandArrayIndex ix0 iy0 (iz0 + 1)
  let v101 ← getGridValue grid bandArrayIndex (ix0 + 1) iy0 (iz0 + 1)
  let v011 ← getGridValue grid bandArrayIndex ix0 (iy0 + 1) (iz0 + 1)
  let v111 ← getGridValue grid bandArrayIndex (ix0 + 1) (iy0 + 1) (iz0 + 1)
  let v00 := v000 * (1 - fx) + v100 * fx
  let v01 := v001 * (1 - fx) + v101 * fx
  let v10 := v010 * (1 - fx) + v110 * fx
  let v11 := v011 * (1 - fx) + v111 * fx
  let v0 := v00 * (1 - fy) + v10 * fy
  let v1 := v01 * (1 - fy) + v11 * fy
  pure (v0 * (1 - fz) + v1 * fz)

/-- `shiftToFermiLevel`: subtract the Fermi energy from every cell of every
band and reset `fermiEnergy` to 0; a fresh grid is returned. -/
def shiftToFermiLevel (grid : EnergyGrid) : EnergyGrid :=
  { grid with
    data := grid.data.map (fun bandData =>
      bandData.map (fun v => v - grid.fermiEnergy))
    fermiEnergy := 0 }

/-- Cell accessor used in the statements: band `b`, flat index `i`. -/
def gridCell (grid : EnergyGrid) (b i : ℕ) : Option ℚ :=
  (grid.data.get? b).bind (fun arr => arr.get? i)

/-- `calculateGradient`: periodic central differences
`(f(i+1) - f(i-1)) / (2/n)` per axis. -/
def calculateGradient (grid : EnergyGrid) (bandArrayIndex : ℕ)
    (ix iy iz : ℤ) : Option (ℚ × ℚ × ℚ) := do
  let xp ← getGridValue grid bandArrayIndex (ix + 1) iy iz
  let xm ← getGridValue grid bandArrayIndex (ix - 1) iy iz
  let yp ← getGridValue grid bandArrayIndex ix (iy + 1) iz
  let ym ← getGridValue grid bandArrayIndex ix (iy - 1) iz
  let zp ← getGridValue grid bandArrayIndex ix iy (iz + 1)
  let zm ← getGridValue grid bandArrayIndex ix iy (iz - 1)
  pure ((xp - xm) / (2 / grid.nx), (yp - ym) / (2 / grid.ny),
    (zp - zm) / (2 / grid.nz))

/-! ## Band-crossing filters (src/unnamed/part_010 and part_009) -/

/-- The `hasAbove`/`hasBelow` flag pair computed by the inner loop of
`findFermiCrossingBands`; the source's early `break` once both flags are
set does not change the final flags and is dropped. -/
def crossingFlags (kPoints : List IrreducibleKPoint) (bandIdx : ℕ)
    (fermiEnergy : ℚ) : Bool × Bool :=
  kPoints.foldl (fun flags kp =>
    match kp.energies.get? bandIdx with
    | none => flags
    | some e => (flags.1 || decide (fermiEnergy < e),
                 flags.2 || decide (e < fermiEnergy))) (false, false)

/-- `LatticeParameters` (part_010); entries are `parseFloat` results, so
each field may be `NaN` (`none`). -/
structure LatticeParameters where
  a : Option ℚ
  b : Option ℚ
  c : Option ℚ
  alpha : Option ℚ
  beta : Option ℚ
  gamma : Option ℚ
  deriving DecidableEq, Repr

/-- `FermiSurfaceRawData` (part_010). -/
structure FermiSurfaceRawData where
  fermiEnergy : ℚ
  kPoints : List IrreducibleKPoint
  numBands : ℕ
  symmetryOps : List SymmetryMatrix
  latticeParams : LatticeParameters
  gridSize : ℤ
  caseName : String

/-- `findFermiCrossingBands` (part_010 lines 414-436): bands with at least
one sample strictly above and one strictly below the Fermi energy. -/
def findFermiCrossingBands (data : FermiSurfaceRawData) : List ℕ :=
  (List.range data.numBands).foldl (fun crossingBands bandIdx =>
    let flags := crossingFlags data.kPoints bandIdx data.fermiEnergy
    if flags.1 && flags.2 then crossingBands ++ [bandIdx] else crossingBands) []

/-- Flag pair for the raw-row variant (part_009). -/
def rowFlags (rows : List (List ℚ)) (bandIdx : ℕ) (fermiEnergy : ℚ) :
    Bool × Bool :=
  rows.foldl (fun flags row =>
    match row.get? bandIdx with
    | none => flags
    | some e => (flags.1 || decide (fermiEnergy < e),
                 flags.2 || decide (e < fermiEnergy))) (false, false)

/-- `findFermiCrossingBandsFromGrid` (part_009 lines 232-256); the band
count scanned is the first row's length. -/
def findFermiCrossingBandsFromGrid (energiesByKPoint : List (List ℚ))
    (fermiEnergy : ℚ) : List ℕ :=
  match energiesByKPoint with
  | [] => []
  | first :: _ =>
      (List.range first.length).foldl (fun crossing bandIdx =>
        let flags := rowFlags energiesByKPoint bandIdx fermiEnergy
        if flags.1 && flags.2 then crossing ++ [bandIdx] else crossing) []

/-! ## JS string and number primitives used by the parsers

The parsers use a small set of JS operations: `split`, `trim`,
`includes`, `parseInt`, `parseFloat`, `Number`, and a few concrete regular
expressions.  They are modelled here at the ASCII level (`\s` is modelled
by the ASCII whitespace characters; `parseFloat`/`Number` cover decimal
literals — the formats the solver emits — and map other forms to `NaN`,
i.e. `none`). -/

/-- ASCII whitespace, modelling the regex class `\s`. -/
def isSpaceJS (c : Char) : Bool :=
  c = ' ' || c = '\t' || c = '\n' || c = '\r' || c = '\x0b' || c = '\x0c'

/-- Word characters, modelling the regex class `\w` (for `\b` boundaries). -/
def isWordChar (c : Char) : Bool :=
  c.isAlphanum || c = '_'

/-- Split a character list at every `'\n'` (structurally, so that the
kernel can evaluate concrete inputs). -/
def splitLinesChars : List Char → List (List Char)
  | [] => [[]]
  | c :: rest =>
      if c = '\n' then [] :: splitLinesChars rest
      else
        match splitLinesChars rest with
        | [] => [[c]]
        | l :: ls => (c :: l) :: ls

/-- `content.split("\n")`. -/
def splitLines (content : String) : List String :=
  (splitLinesChars content.toList).map (fun cs => String.mk cs)

/-- JS `String.prototype.trim`: strip whitespace from both ends. -/
def jsTrimChars (cs : List Char) : List Char :=
  ((cs.dropWhile isSpaceJS).reverse.dropWhile isSpaceJS).reverse

/-- JS `s.trim()`. -/
def jsTrim (s : String) : String :=
  String.mk (jsTrimChars s.toList)

/-- Maximal non-whitespace runs of a character list (`acc` holds the
current token, reversed). -/
def tokensAux : List Char → List Char → List (List Char)
  | acc, [] => if acc.isEmpty then [] else [acc.reverse]
  | acc, c :: rest =>
      if isSpaceJS c then
        if acc.isEmpty then tokensAux [] rest
        else acc.reverse :: tokensAux [] rest
      else tokensAux (c :: acc) rest

/-- `s.trim().split(/\s+/)` for the trimmed strings the source feeds it:
the maximal non-whitespace tokens. -/
def splitWsTokens (s : String) : List String :=
  (tokensAux [] s.toList).map (fun cs => String.mk cs)

/-- `s.startsWith(pre)`. -/
def jsStartsWith (s pre : String) : Bool :=
  pre.toList.isPrefixOf s.toList

/-- `parts.join(' ')` on character lists. -/
def joinSpaceChars : List (List Char) → List Char
  | [] => []
  | t :: rest =>
      match rest with
      | [] => t
      | _ :: _ => t ++ ' ' :: joinSpaceChars rest

/-- `parts.join(' ')` (the result of `Array.prototype.join` with `' '`). -/
def jsJoinSpace (parts : List String) : String :=
  String.mk (joinSpaceChars (parts.map String.toList))

/-- Does `needle` occur as a contiguous run in the haystack? -/
def includesAux (needle : List Char) : List Char → Bool
  | [] => needle.isEmpty
  | c :: rest => needle.isPrefixOf (c :: rest) || includesAux needle rest

/-- `line.includes(sub)`. -/
def jsIncludes (line sub : String) : Bool :=
  includesAux sub.toList line.toList

/-- Numeric value of a digit character. -/
def digitVal (c : Char) : ℕ := c.toNat - '0'.toNat

/-- Numeric value of a digit run. -/
def digitsVal (ds : List Char) : ℕ :=
  ds.foldl (fun acc c => acc * 10 + digitVal c) 0

/-- `parseInt(s, 10)`: optional sign then a digit prefix; `none` is `NaN`. -/
def jsParseInt (s : String) : Option ℤ :=
  let cs := s.toList.dropWhile isSpaceJS
  let sgn : ℤ := if cs.headD ' ' = '-' then -1 else 1
  let cs1 := match cs with
    | '-' :: rest => rest
    | '+' :: rest => rest
    | _ => cs
  let ds := cs1.takeWhile Char.isDigit
  if ds = [] then none else some (sgn * digitsVal ds)

/-- `parseFloat(s)`: longest decimal-literal prefix
(`[+-]? digits [. digits] [e[+-]digits]`); `none` is `NaN`. -/
def jsParseFloat (s : String) : Option ℚ :=
  let cs := s.toList.dropWhile isSpaceJS
  let sgn : ℚ := if cs.headD ' ' = '-' then -1 else 1
  let cs1 := match cs with
    | '-' :: rest => rest
    | '+' :: rest => rest
    | _ => cs
  let intDigits := cs1.takeWhile Char.isDigit
  let cs2 := cs1.dropWhile Char.isDigit
  let fracDigits := match cs2 with
    | '.' :: rest => rest.takeWhile Char.isDigit
    | _ => []
  let cs3 := match cs2 with
    | '.' :: rest => rest.dropWhile Char.isDigit
    | _ => cs2
  if intDigits = [] ∧ fracDigits = [] then none
  else
    let mant : ℚ :=
      (digitsVal (intDigits ++ fracDigits) : ℚ) / (10 : ℚ) ^ fracDigits.length
    let expVal : ℤ := match cs3 with
      | c :: rest =>
          if c = 'e' ∨ c = 'E' then
            let esgn : ℤ := if rest.headD ' ' = '-' then -1 else 1
            let rest1 := match rest with
              | '-' :: r => r
              | '+' :: r => r
              | _ => rest
            let eDigits := rest1.takeWhile Char.isDigit
            if eDigits = [] then 0 else esgn * digitsVal eDigits
          else 0
      | [] => 0
    some (sgn * mant * (10 : ℚ) ^ expVal)

/-- `Number(s)` on a whitespace-free token: the whole token must be a
decimal literal; the empty string is 0; anything else is `NaN` (`none`). -/
def jsNumber (s : String) : Option ℚ :=
  let cs := s.toList
  if cs = [] then some 0
  else
    let sgn : ℚ := if cs.headD ' ' = '-' then -1 else 1
    let cs1 := match cs with
      | '-' :: rest => rest
      | '+' :: rest => rest
      | _ => cs
    let intDigits := cs1.takeWhile Char.isDigit
    let cs2 := cs1.dropWhile Char.isDigit
    let fracDigits := match cs2 with
      | '.' :: rest => rest.takeWhile Char.isDigit
      | _ => []
    let cs3 := match cs2 with
      | '.' :: rest => rest.dropWhile Char.isDigit
      | _ => cs2
    if intDigits = [] ∧ fracDigits = [] then none
    else
      let mant : ℚ :=
        (digitsVal (intDigits ++ fracDigits) : ℚ) / (10 : ℚ) ^ fracDigits.length
      match cs3 with
      | [] => some (sgn * mant)
      | c :: rest =>
          if c = 'e' ∨ c = 'E' then
            let esgn : ℤ := if rest.headD ' ' = '-' then -1 else 1
            let rest1 := match rest with
              | '-' :: r => r
              | '+' :: r => r
              | _ => rest
            let eDigits := rest1.takeWhile Char.isDigit
            let rest2 := rest1.dropWhile Char.isDigit
            if eDigits ≠ [] ∧ rest2 = [] then
              some (sgn * mant * (10 : ℚ) ^ (esgn * digitsVal eDigits))
            else none
          else none

/-- Rydberg → eV conversion factor (part_009/part_010 `RY_TO_EV`). -/
def RY_TO_EV : ℚ := 13605693122994 / 1000000000000

/-- The exact rational value of the IEEE double `Math.PI`. -/
def mathPI : ℚ := 884279719003555 / 281474976710656

/-- `parseFloatLine` (part_009): trim, split on whitespace, `parseFloat`
each token, drop the `NaN`s. -/
def parseFloatLine (line : String) : List ℚ :=
  (splitWsTokens (jsTrim line)).filterMap jsParseFloat

/-- `parseIntLine` (part_009): trim, split, `parseInt(_, 10)`, drop `NaN`s. -/
def parseIntLine (line : String) : List ℤ :=
  (splitWsTokens (jsTrim line)).filterMap jsParseInt

/-! ## Fermi-energy parsers (part_010 `parseFermiFromScf`,
part_009 `parseFermiFromOutput2`)

Both scan every line with the regex
`/:FER\s*:\s*F\s*E\s*R\s*M\s*I.*?=\s*([-\d.]+)/i` and keep the last
match's captured value. -/

/-- Case-insensitive character comparison (the regex has the `i` flag). -/
def charCI (a b : Char) : Bool := a.toLower = b.toLower

/-- Match one case-insensitive character. -/
def expectCI (c : Char) : List Char → Option (List Char)
  | [] => none
  | x :: rest => if charCI x c then some rest else none

/-- The character class `[-\d.]` of the capture group. -/
def ferCapChar (c : Char) : Bool := c = '-' || c.isDigit || c = '.'

/-- The lazy tail `.*?=\s*([-\d.]+)` of the Fermi regex: find the first
`=` that is followed (after whitespace) by at least one `[-\d.]`
character, and return that maximal run.  `.` does not cross line
terminators. -/
def ferEq : List Char → Option (List Char)
  | [] => none
  | '=' :: rest =>
      let r2 := rest.dropWhile isSpaceJS
      let run := r2.takeWhile ferCapChar
      if run ≠ [] then some run else ferEq rest
  | '\r' :: _ => none
  | '\n' :: _ => none
  | _ :: rest => ferEq rest

/-- The prefix `:FER\s*:\s*F\s*E\s*R\s*M\s*I` of the Fermi regex, matched
at the head of the character list. -/
def ferAt (cs : List Char) : Option (List Char) := do
  let r1 ← expectCI ':' cs
  let r2 ← expectCI 'f' r1
  let r3 ← expectCI 'e' r2
  let r4 ← expectCI 'r' r3
  let r5 ← expectCI ':' (r4.dropWhile isSpaceJS)
  let r6 ← expectCI 'f' (r5.dropWhile isSpaceJS)
  let r7 ← expectCI 'e' (r6.dropWhile isSpaceJS)
  let r8 ← expectCI 'r' (r7.dropWhile isSpaceJS)
  let r9 ← expectCI 'm' (r8.dropWhile isSpaceJS)
  expectCI 'i' (r9.dropWhile isSpaceJS)

/-- The whole Fermi regex anchored at the head of the list. -/
def ferFrom (cs : List Char) : Option (List Char) :=
  (ferAt cs).bind ferEq

/-- Leftmost match of the Fermi regex in a line. -/
def ferScan : List Char → Option (List Char)
  | [] => none
  | c :: rest =>
      match ferFrom (c :: rest) with
      | some cap => some cap
      | none => ferScan rest

/-- `line.match(/:FER\s*:\s*F\s*E\s*R\s*M\s*I.*?=\s*([-\d.]+)/i)`,
returning the capture group. -/
def ferMatch (line : String) : Option String :=
  (ferScan line.toList).map (fun cs => String.mk cs)

/-- `parseFermiFromScf` (part_010 lines 179-193): the last `:FER` match
wins; `fermiEnergy` starts at 0; `none` is a `NaN` result. -/
def parseFermiFromScf (content : String) : Option ℚ :=
  let lines := splitLines content
  (lines.foldl (fun fermiEnergy line =>
    match ferMatch line with
    | none => fermiEnergy
    | some cap => jsParseFloat cap) (some 0)).map (fun v => v * RY_TO_EV)

/-- `parseFermiFromOutput2` (part_009 lines 34-44): identical scan. -/
def parseFermiFromOutput2 (content : String) : Option ℚ :=
  let lines := splitLines content
  (lines.foldl (fun fermiEnergy line =>
    match ferMatch line with
    | none => fermiEnergy
    | some cap => jsParseFloat cap) (some 0)).map (fun v => v * RY_TO_EV)

/-! ## Structure-file parser (part_010 `parseStruct`, lines 198-316) -/

/-- One parsed symmetry-matrix row (`parseSymmetryRow` result): three
rotation entries and the translation; entries are `parseInt`/`parseFloat`
results, so `none` is `NaN`. -/
structure SymRowData where
  r1 : Option ℤ
  r2 : Option ℤ
  r3 : Option ℤ
  t : Option ℚ
  deriving DecidableEq, Repr

/-- A symmetry operation as `parseStruct` builds it (rows of `parseInt`ed
entries, possibly `NaN` from the space-separated fallback). -/
structure StructOp where
  rotation : List (List (Option ℤ))
  translation : List (Option ℚ)
  deriving DecidableEq, Repr

/-- `parseStruct`'s result: symmetry operations and lattice parameters. -/
structure StructResult where
  symmetryOps : List StructOp
  latticeParams : LatticeParameters
  deriving DecidableEq, Repr

/-- The group `[-]?\d` of the rotation regex: an optional minus followed by
one digit.  The group is deterministic, so no backtracking is needed. -/
def signDigit : List Char → Option (ℤ × List Char)
  | '-' :: c :: rest => if c.isDigit then some (-(digitVal c : ℤ), rest) else none
  | '-' :: [] => none
  | c :: rest => if c.isDigit then some ((digitVal c : ℤ), rest) else none
  | [] => none

/-- `([-]?\d)([-]?\d)([-]?\d)` anchored at the head: three consecutive
sign-digit groups. -/
def rotTripleFrom (cs : List Char) : Option (ℤ × ℤ × ℤ) := do
  let (a, r1) ← signDigit cs
  let (b, r2) ← signDigit r1
  let (c, _) ← signDigit r2
  pure (a, b, c)

/-- Leftmost match of `([-]?\d)([-]?\d)([-]?\d)`. -/
def rotTripleScan : List Char → Option (ℤ × ℤ × ℤ)
  | [] => none
  | c :: rest =>
      match rotTripleFrom (c :: rest) with
      | some v => some v
      | none => rotTripleScan rest

/-- `parseSymmetryRow` (part_010 lines 281-316): translation from the last
token, rotation either from three concatenated sign-digit groups or from
three space-separated tokens. -/
def parseSymmetryRow (line : String) : Option SymRowData :=
  let parts := splitWsTokens (jsTrim line)
  match parts.getLast? with
  | none => none
  | some lastPart =>
      let translation := jsParseFloat lastPart
      let rotPart := jsJoinSpace parts.dropLast
      match rotTripleScan rotPart.toList with
      | some (a, b, c) => some ⟨some a, some b, some c, translation⟩
      | none =>
          let rotParts := parts.dropLast
          if rotParts.length ≥ 3 then
            some ⟨jsParseInt (rotParts.getD 0 ""), jsParseInt (rotParts.getD 1 ""),
              jsParseInt (rotParts.getD 2 ""), translation⟩
          else none

/-- The literal phrase of the symmetry-count regex. -/
def symPhrase : List Char := "NUMBER OF SYMMETRY OPERATIONS".toList

/-- Case-insensitive literal-phrase match at the head of the list. -/
def matchPhraseCI : List Char → List Char → Bool
  | [], _ => true
  | _ :: _, [] => false
  | p :: ps, c :: cs => charCI c p && matchPhraseCI ps cs

/-- `(\d+)\s+NUMBER OF SYMMETRY OPERATIONS` (case-insensitive) anchored at
the head: a digit run, at least one whitespace, then the phrase. -/
def symHeaderFrom (cs : List Char) : Option ℕ :=
  let ds := cs.takeWhile Char.isDigit
  if ds = [] then none
  else
    let rest := cs.dropWhile Char.isDigit
    if (rest.takeWhile isSpaceJS).isEmpty then none
    else if matchPhraseCI symPhrase (rest.dropWhile isSpaceJS) then
      some (digitsVal ds)
    else none

/-- Leftmost match of the symmetry-count regex. -/
def symHeaderScan : List Char → Option ℕ
  | [] => none
  | c :: rest =>
      match symHeaderFrom (c :: rest) with
      | some n => some n
      | none => symHeaderScan rest

/-- `line.match(/(\d+)\s+NUMBER OF SYMMETRY OPERATIONS/i)`, returning the
captured count. -/
def symHeaderMatch (line : String) : Option ℕ :=
  symHeaderScan line.toList

/-- Lattice-parameter defaults (`a: 1, …, alpha: Math.PI / 2, …`). -/
def defaultLattice : LatticeParameters :=
  { a := some 1, b := some 1, c := some 1,
    alpha := some (mathPI / 2), beta := some (mathPI / 2),
    gamma := some (mathPI / 2) }

/-- Lattice parsing of line index 3: six tokens, lengths then angles in
degrees converted to radians with the double `Math.PI`. -/
def parseLatticeLine (line : String) (lat : LatticeParameters) :
    LatticeParameters :=
  let parts := splitWsTokens (jsTrim line)
  if parts.length ≥ 6 then
    { a := jsParseFloat (parts.getD 0 ""), b := jsParseFloat (parts.getD 1 ""),
      c := jsParseFloat (parts.getD 2 ""),
      alpha := (jsParseFloat (parts.getD 3 "")).map (fun d => d * mathPI / 180),
      beta := (jsParseFloat (parts.getD 4 "")).map (fun d => d * mathPI / 180),
      gamma := (jsParseFloat (parts.getD 5 "")).map (fun d => d * mathPI / 180) }
  else lat

/-- The first `while` loop of `parseStruct`: walk the lines, parsing the
lattice at index 3, and stop at the first symmetry-count header (returning
the count and the remaining lines, i.e. `symStartLine` onward). -/
def structScan : ℕ → LatticeParameters → List String →
    LatticeParameters × Option (ℕ × List String)
  | _, lat, [] => (lat, none)
  | i, lat, l :: rest =>
      let latNext := if i = 3 then parseLatticeLine l lat else lat
      match symHeaderMatch l with
      | some n => (latNext, some (n, rest))
      | none => structScan (i + 1) latNext rest

/-- The symmetry-operation loop of `parseStruct`: each operation consumes
4 lines (3 matrix rows + 1 index line); it stops early when fewer than 4
lines remain; an operation is kept only when all 3 rows parsed. -/
def parseSymOps : ℕ → List String → List StructOp
  | 0, _ => []
  | n + 1, l1 :: l2 :: l3 :: _ :: rest =>
      let rows := [parseSymmetryRow l1, parseSymmetryRow l2,
        parseSymmetryRow l3].filterMap id
      (if rows.length = 3 then
        [{ rotation := rows.map (fun r => [r.r1, r.r2, r.r3]),
           translation := rows.map (fun r => r.t) }]
      else []) ++ parseSymOps n rest
  | _ + 1, _ => []

/-- `parseStruct` (part_010 lines 198-275).  Note that it is total: when
the symmetry-count header is absent it returns an empty operation list
(the source has no `throw` on that path). -/
def parseStruct (content : String) : StructResult :=
  let lines := splitLines content
  match structScan 0 defaultLattice lines with
  | (lat, none) => ⟨[], lat⟩
  | (lat, some (n, rest)) => ⟨parseSymOps n rest, lat⟩

/-! ## Mesh-generation parser (part_009 `parseOutputkgen`, lines 98-165) -/

/-- One relation-table row `(pointIndex, x, y, z, relationIndex)`; the
point index (column 0) is read but not stored. -/
structure KgenEntry where
  x : ℚ
  y : ℚ
  z : ℚ
  relation : ℚ
  deriving DecidableEq, Repr

/-- The failure modes of `parseOutputkgen`:  the two typed `throw`s, plus
the JS `TypeError` raised when the reciprocal-vector scan matches within
3 lines of the end of the file and reads `undefined.trim()`. -/
inductive KgenError where
  | linesOutOfRange
  | missingDimensions
  | insufficientEntries (expected : ℤ) (got : ℕ)
  deriving DecidableEq, Repr

/-- `parseOutputkgen`'s successful result. -/
structure OutputkgenData where
  nx : ℤ
  ny : ℤ
  nz : ℤ
  reciprocalVectors : List (List ℚ)
  entries : List KgenEntry
  deriving DecidableEq, Repr

/-- `/\bG1\b\s+G2\s+G3/` anchored at the head: `G1` then whitespace then
`G2` then whitespace then `G3` (the trailing `\b` of `G1` is subsumed by
`\s+`). -/
def g1From : List Char → Bool
  | 'G' :: '1' :: rest =>
      !(rest.takeWhile isSpaceJS).isEmpty &&
        (match rest.dropWhile isSpaceJS with
         | 'G' :: '2' :: rest2 =>
             !(rest2.takeWhile isSpaceJS).isEmpty &&
               (match rest2.dropWhile isSpaceJS with
                | 'G' :: '3' :: _ => true
                | _ => false)
         | _ => false)
  | _ => false

/-- Search for `/\bG1\b…/`, tracking whether the previous character is a
word character (for the `\b` boundary). -/
def g1Scan : Bool → List Char → Bool
  | _, [] => false
  | prevWord, c :: rest =>
      (!prevWord && g1From (c :: rest)) || g1Scan (isWordChar c) rest

/-- `line.match(/\bG1\b\s+G2\s+G3/)` as a Boolean. -/
def matchG1 (line : String) : Bool :=
  g1Scan false line.toList

/-- The reciprocal-vector scan of `parseOutputkgen`: at the first `G1 G2
G3` header whose three following lines each parse to 3 floats, return
them; `none` models the JS `TypeError` when the following lines run past
the end of the file. -/
def gvecScan : List String → Option (List (List ℚ))
  | [] => some []
  | l :: rest =>
      if matchG1 l then
        match rest with
        | a :: b :: c :: _ =>
            let vec1 := parseFloatLine a
            let vec2 := parseFloatLine b
            let vec3 := parseFloatLine c
            if vec1.length = 3 ∧ vec2.length = 3 ∧ vec3.length = 3 then
              some [vec1, vec2, vec3]
            else gvecScan rest
        | _ => none
      else gvecScan rest

/-- The mesh-division scan: at the first line containing the division
marker, read the last three integers and add one to each; any failure on
that line — or no marker line at all — leaves the zero dimensions that
trigger the typed error. -/
def divisionScan : List String → ℤ × ℤ × ℤ
  | [] => (0, 0, 0)
  | l :: rest =>
      if jsIncludes l "DIVISION OF RECIPROCAL LATTICE VECTORS" then
        let ints := parseIntLine l
        if ints.length ≥ 3 then
          (ints.getD (ints.length - 3) 0 + 1, ints.getD (ints.length - 2) 0 + 1,
            ints.getD (ints.length - 1) 0 + 1)
        else (0, 0, 0)
      else divisionScan rest

/-- The relation-table region: the lines after the column-header line
(`point`/`coordinates`/`relation`, else a line whose trim starts with
`point`), or all lines when no header is found (`cursor = 0`). -/
def relationLines (lines : List String) : List String :=
  match lines.findIdx? (fun l => jsIncludes l "point" &&
      jsIncludes l "coordinates" && jsIncludes l "relation") with
  | some i => lines.drop (i + 1)
  | none =>
      match lines.findIdx? (fun l => jsStartsWith (jsTrim l) "point") with
      | some i => lines.drop (i + 1)
      | none => lines

/-- One candidate relation row: a non-blank line with at least 5
`Number`-valid columns yields an entry, anything else is skipped. -/
def entryOfLine (l : String) : Option KgenEntry :=
  let t := jsTrim l
  if t = "" then none
  else
    let parts := (splitWsTokens t).map jsNumber
    if parts.length ≥ 5 ∧ parts.all (fun p => p.isSome) then
      some ⟨(parts.getD 1 none).getD 0, (parts.getD 2 none).getD 0,
        (parts.getD 3 none).getD 0, (parts.getD 4 none).getD 0⟩
    else none

/-- The collection `while` loop: walk lines, keep valid rows, stop once
`totalPoints` entries are collected or the lines run out. -/
def collectEntries (totalPoints : ℤ) : List String → List KgenEntry →
    List KgenEntry
  | [], acc => acc
  | l :: rest, acc =>
      if (acc.length : ℤ) < totalPoints then
        match entryOfLine l with
        | some e => collectEntries totalPoints rest (acc ++ [e])
        | none => collectEntries totalPoints rest acc
      else acc

/-- `parseOutputkgen` (part_009 lines 98-165). -/
def parseOutputkgen (content : String) : Except KgenError OutputkgenData :=
  let lines := splitLines content
  match gvecScan lines with
  | none => .error .linesOutOfRange
  | some reciprocalVectors =>
      let dims := divisionScan lines
      if dims.1 = 0 ∨ dims.2.1 = 0 ∨ dims.2.2 = 0 then
        .error .missingDimensions
      else
        let totalPoints := dims.1 * dims.2.1 * dims.2.2
        let entries := collectEntries totalPoints (relationLines lines) []
        if (entries.length : ℤ) < totalPoints then
          .error (.insufficientEntries totalPoints entries.length)
        else
          .ok ⟨dims.1, dims.2.1, dims.2.2, reciprocalVectors, entries⟩

/-! ## Isosurface extraction

`src/lib/marchingCubes.ts` is not among the provided sources (only its call
site in `FermiSurfacePage.tsx` is), so the extractor is modelled from the
specification, §4.6. -/

/-- `IsosurfaceMesh`: vertex positions, parallel normals, triangle
indices, vertex count (may be 0). -/
structure IsosurfaceMesh where
  positions : List (ℚ × ℚ × ℚ)
  normals : List (ℚ × ℚ × ℚ)
  indices : List ℕ
  vertexCount : ℕ
  deriving DecidableEq, Repr

/-- Modelled from the spec: the 8 corner offsets of a grid cell, in the
standard marching-cubes order. -/
def mcCorners : List (ℕ × ℕ × ℕ) :=
  [(0, 0, 0), (1, 0, 0), (0, 1, 0), (1, 1, 0),
   (0, 0, 1), (1, 0, 1), (0, 1, 1), (1, 1, 1)]

/-- Modelled from the spec: the 12 cell edges as pairs of corner indices
into `mcCorners`. -/
def mcEdges : List (ℕ × ℕ) :=
  [(0, 1), (1, 3), (3, 2), (2, 0),
   (4, 5), (5, 7), (7, 6), (6, 4),
   (0, 4), (1, 5), (3, 7), (2, 6)]

/-- Modelled from the spec: read a cell-corner value with periodic
wraparound on the high boundary (via `getGridValue`); a read of missing
data is defaulted so the extractor is total ("never raises errors"). -/
def mcCornerValue (grid : EnergyGrid) (b : ℕ) (cell off : ℕ × ℕ × ℕ) : ℚ :=
  (getGridValue grid b (cell.1 + off.1 : ℕ) (cell.2.1 + off.2.1 : ℕ)
    (cell.2.2 + off.2.2 : ℕ)).getD 0

/-- Modelled from the spec: corner classification against the isovalue. -/
def mcInside (v isoValue : ℚ) : Bool := v < isoValue

/-- Modelled from the spec: the edges of one cell whose two corner
classifications differ — exactly the edges the standard edge table marks
as crossed for the cell's 8-bit configuration. -/
def mcCrossedEdges (grid : EnergyGrid) (isoValue : ℚ) (b : ℕ)
    (cell : ℕ × ℕ × ℕ) : List (ℕ × ℕ) :=
  mcEdges.filter (fun e =>
    mcInside (mcCornerValue grid b cell (mcCorners.getD e.1 (0, 0, 0))) isoValue
      != mcInside (mcCornerValue grid b cell (mcCorners.getD e.2 (0, 0, 0))) isoValue)

/-- Modelled from the spec: fractional k-space position of a cell corner,
`index/n - 0.5` per axis. -/
def mcCornerPos (grid : EnergyGrid) (cell off : ℕ × ℕ × ℕ) : ℚ × ℚ × ℚ :=
  (((cell.1 + off.1 : ℕ) : ℚ) / grid.nx - 1/2,
   ((cell.2.1 + off.2.1 : ℕ) : ℚ) / grid.ny - 1/2,
   ((cell.2.2 + off.2.2 : ℕ) : ℚ) / grid.nz - 1/2)

/-- Modelled from the spec: the interpolated vertex on a crossed edge,
`t = (iso - v0) / (v1 - v0)`; on a crossed edge `v1 ≠ v0`, and the
degenerate-guard case is absorbed by rational division's zero default. -/
def mcEdgeVertex (grid : EnergyGrid) (isoValue : ℚ) (b : ℕ)
    (cell : ℕ × ℕ × ℕ) (e : ℕ × ℕ) : ℚ × ℚ × ℚ :=
  let o0 := mcCorners.getD e.1 (0, 0, 0)
  let o1 := mcCorners.getD e.2 (0, 0, 0)
  let v0 := mcCornerValue grid b cell o0
  let v1 := mcCornerValue grid b cell o1
  let t := (isoValue - v0) / (v1 - v0)
  let p0 := mcCornerPos grid cell o0
  let p1 := mcCornerPos grid cell o1
  (p0.1 + t * (p1.1 - p0.1), p0.2.1 + t * (p1.2.1 - p0.2.1),
    p0.2.2 + t * (p1.2.2 - p0.2.2))

/-- Modelled from the spec: vertex normal from the periodic
central-difference gradient, with the `(0,0,1)` default for a vanishing
(or unavailable) gradient; unit normalization involves a square root and
is left at the direction level. -/
def mcNormal (grid : EnergyGrid) (b : ℕ) (cell : ℕ × ℕ × ℕ) : ℚ × ℚ × ℚ :=
  match calculateGradient grid b (cell.1 : ℤ) (cell.2.1 : ℤ) (cell.2.2 : ℤ) with
  | none => (0, 0, 1)
  | some gr => if gr = (0, 0, 0) then (0, 0, 1) else gr

/-- Modelled from the spec: all cells of the periodic grid. -/
def mcCells (grid : EnergyGrid) : List (ℕ × ℕ × ℕ) :=
  (List.range grid.nz).flatMap (fun iz =>
    (List.range grid.ny).flatMap (fun iy =>
      (List.range grid.nx).map (fun ix => (ix, iy, iz))))

/-- Modelled from the spec: `marchingCubes(grid, isoValue, band)`
(src/lib/marchingCubes.ts, absent from the sources).  Per cell, one vertex
per crossed edge; triangle assembly from the standard triangulation table
is abstracted to consecutive emitted vertices; total by construction, and
an absent surface yields the empty mesh. -/
def marchingCubes (grid : EnergyGrid) (isoValue : ℚ) (b : ℕ) :
    IsosurfaceMesh :=
  let verts := (mcCells grid).flatMap (fun cell =>
    (mcCrossedEdges grid isoValue b cell).map
      (fun e => mcEdgeVertex grid isoValue b cell e))
  let norms := (mcCells grid).flatMap (fun cell =>
    (mcCrossedEdges grid isoValue b cell).map (fun _ => mcNormal grid b cell))
  { positions := verts, normals := norms,
    indices := List.range verts.length, vertexCount := verts.length }

/-- The expansion produced by a single identity operation on an in-range,
pairwise-distinct irreducible list: the points themselves, with weight 1
and consecutive origin indices (used to state the amended symmetry-identity
property). -/
def identityExpansion : ℕ → List IrreducibleKPoint → List ExpandedKPoint
  | _, [] => []
  | i, p :: rest =>
      ⟨p.kx, p.ky, p.kz, 1, p.energies, i⟩ :: identityExpansion (i + 1) rest

/-! ## Proofs -/

theorem wrapDownF_of_lt (n : ℕ) (x : ℚ) (h : ¬ (1/2 ≤ x)) : wrapDownF n x = x := by
  cases n with
  | zero => rfl
  | succ n => rw [wrapDownF, if_neg h]

theorem wrapUpF_of_ge (n : ℕ) (x : ℚ) (h : ¬ (x < -(1/2))) : wrapUpF n x = x := by
  cases n with
  | zero => rfl
  | succ n => rw [wrapUpF, if_neg h]

theorem wrapDownF_lt (n : ℕ) : ∀ x : ℚ, x < 1/2 + n → wrapDownF n x < 1/2 := by
  induction n with
  | zero =>
    intro x hx
    simpa using hx
  | succ n ih =>
    intro x hx
    by_cases h : 1/2 ≤ x
    · rw [wrapDownF, if_pos h]
      apply ih
      push_cast at hx ⊢
      linarith
    · rw [wrapDownF, if_neg h]
      linarith

theorem wrapUpF_ge (n : ℕ) : ∀ x : ℚ, -x < 1/2 + n → -(1/2) ≤ wrapUpF n x := by
  induction n with
  | zero =>
    intro x hx
    simp only [wrapUpF]
    push_cast at hx
    linarith
  | succ n ih =>
    intro x hx
    by_cases h : x < -(1/2)
    · rw [wrapUpF, if_pos h]
      apply ih
      push_cast at hx ⊢
      linarith
    · rw [wrapUpF, if_neg h]
      linarith

theorem wrapUpF_lt_half (n : ℕ) : ∀ x : ℚ, x < 1/2 → wrapUpF n x < 1/2 := by
  induction n with
  | zero =>
    intro x hx
    simpa [wrapUpF] using hx
  | succ n ih =>
    intro x hx
    by_cases h : x < -(1/2)
    · rw [wrapUpF, if_pos h]
      exact ih _ (by linarith)
    · rw [wrapUpF, if_neg h]
      exact hx

theorem wrapDownF_stable (n : ℕ) : ∀ m : ℕ, ∀ x : ℚ, x < 1/2 + n → n ≤ m →
    wrapDownF m x = wrapDownF n x := by
  induction n with
  | zero =>
    intro m x hx _
    have hlt : ¬ (1/2 ≤ x) := by push_cast at hx; linarith
    rw [wrapDownF_of_lt m x hlt]
    rfl
  | succ n ih =>
    intro m x hx hm
    by_cases h : 1/2 ≤ x
    · obtain ⟨m', rfl⟩ : ∃ m', m = m' + 1 := ⟨m - 1, by omega⟩
      rw [wrapDownF, if_pos h, wrapDownF, if_pos h]
      apply ih
      · push_cast at hx ⊢; linarith
      · omega
    · rw [wrapDownF_of_lt m x h, wrapDownF_of_lt _ x h]

theorem wrapUpF_stable (n : ℕ) : ∀ m : ℕ, ∀ x : ℚ, -x < 1/2 + n → n ≤ m →
    wrapUpF m x = wrapUpF n x := by
  induction n with
  | zero =>
    intro m x hx _
    have hge : ¬ (x < -(1/2)) := by push_cast at hx; linarith
    rw [wrapUpF_of_ge m x hge]
    rfl
  | succ n ih =>
    intro m x hx hm
    by_cases h : x < -(1/2)
    · obtain ⟨m', rfl⟩ : ∃ m', m = m' + 1 := ⟨m - 1, by omega⟩
      rw [wrapUpF, if_pos h, wrapUpF, if_pos h]
      apply ih
      · push_cast at hx ⊢; linarith
      · omega
    · rw [wrapUpF_of_ge m x h, wrapUpF_of_ge _ x h]

theorem downFuel_spec (x : ℚ) : x < 1/2 + downFuel x := by
  have h1 : x ≤ (⌈x⌉ : ℚ) := Int.le_ceil x
  have h2 : (⌈x⌉ + 1 : ℤ) ≤ ((⌈x⌉ + 1).toNat : ℤ) := Int.self_le_toNat _
  have h3 : ((⌈x⌉ + 1 : ℤ) : ℚ) ≤ (((⌈x⌉ + 1).toNat : ℤ) : ℚ) := by exact_mod_cast h2
  unfold downFuel
  push_cast at h3 ⊢
  linarith

theorem upFuel_spec (x : ℚ) : -x < 1/2 + upFuel x := by
  have h1 : -x ≤ (⌈-x⌉ : ℚ) := Int.le_ceil (-x)
  have h2 : (⌈-x⌉ + 1 : ℤ) ≤ ((⌈-x⌉ + 1).toNat : ℤ) := Int.self_le_toNat _
  have h3 : ((⌈-x⌉ + 1 : ℤ) : ℚ) ≤ (((⌈-x⌉ + 1).toNat : ℤ) : ℚ) := by exact_mod_cast h2
  unfold upFuel
  push_cast at h3 ⊢
  linarith

theorem wrapScalar_lt_half (x : ℚ) : wrapScalar x < 1/2 := by
  unfold wrapScalar
  exact wrapUpF_lt_half _ _ (wrapDownF_lt _ _ (downFuel_spec x))

theorem wrapScalar_ge_neg_half (x : ℚ) : -(1/2) ≤ wrapScalar x := by
  unfold wrapScalar
  exact wrapUpF_ge _ _ (upFuel_spec _)

theorem wrapScalar_of_mem (x : ℚ) (h1 : -(1/2) ≤ x) (h2 : x < 1/2) :
    wrapScalar x = x := by
  unfold wrapScalar
  rw [wrapDownF_of_lt _ x (by linarith)]
  exact wrapUpF_of_ge _ x (by linarith)

theorem wrapScalar_idem (x : ℚ) : wrapScalar (wrapScalar x) = wrapScalar x :=
  wrapScalar_of_mem _ (wrapScalar_ge_neg_half x) (wrapScalar_lt_half x)

/-- **C4**: every coordinate of `wrapToBZ(k)` lies in `[-0.5, 0.5)`, and
`wrapToBZ` is idempotent.  (The JS finiteness proviso is implicit: the
rationals model exactly the finite values.) -/
theorem wrapToBZ_range_idem (k : KVec) :
    (-(1/2) ≤ (wrapToBZ k).kx ∧ (wrapToBZ k).kx < 1/2) ∧
    (-(1/2) ≤ (wrapToBZ k).ky ∧ (wrapToBZ k).ky < 1/2) ∧
    (-(1/2) ≤ (wrapToBZ k).kz ∧ (wrapToBZ k).kz < 1/2) ∧
    wrapToBZ (wrapToBZ k) = wrapToBZ k := by
  refine ⟨⟨wrapScalar_ge_neg_half _, wrapScalar_lt_half _⟩,
    ⟨wrapScalar_ge_neg_half _, wrapScalar_lt_half _⟩,
    ⟨wrapScalar_ge_neg_half _, wrapScalar_lt_half _⟩, ?_⟩
  ext
  · exact wrapScalar_idem _
  · exact wrapScalar_idem _
  · exact wrapScalar_idem _

theorem wrapDownOE_inf (n : ℕ) : wrapDownOE n ExtQ.inf = none := by
  induction n with
  | zero => rfl
  | succ n ih => simpa [wrapDownOE, ExtQ.geHalf, ExtQ.subOne] using ih

theorem wrapDownOE_fin (n : ℕ) : ∀ q : ℚ, q < 1/2 + n →
    wrapDownOE n (ExtQ.fin q) = some (ExtQ.fin (wrapDownF n q)) := by
  induction n with
  | zero =>
    intro q hq
    have h : ¬ (1/2 ≤ q) := by push_cast at hq; linarith
    rw [wrapDownOE, wrapDownF]
    simp only [ExtQ.geHalf, decide_eq_false h]
    rfl
  | succ n ih =>
    intro q hq
    by_cases h : 1/2 ≤ q
    · have hstep : wrapDownOE (n + 1) (ExtQ.fin q) = wrapDownOE n (ExtQ.fin (q - 1)) := by
        rw [wrapDownOE]
        simp only [ExtQ.geHalf, decide_eq_true_eq, if_pos h]
        rfl
      rw [hstep, ih (q - 1) (by push_cast at hq ⊢; linarith), wrapDownF, if_pos h]
    · rw [wrapDownF_of_lt _ q h, wrapDownOE]
      simp only [ExtQ.geHalf, decide_eq_false h]
      rfl

theorem wrapUpOE_fin (n : ℕ) : ∀ q : ℚ, -q < 1/2 + n →
    wrapUpOE n (ExtQ.fin q) = some (ExtQ.fin (wrapUpF n q)) := by
  induction n with
  | zero =>
    intro q hq
    have h : ¬ (q < -(1/2)) := by push_cast at hq; linarith
    rw [wrapUpOE, wrapUpF]
    simp only [ExtQ.ltNegHalf, decide_eq_false h]
    rfl
  | succ n ih =>
    intro q hq
    by_cases h : q < -(1/2)
    · have hstep : wrapUpOE (n + 1) (ExtQ.fin q) = wrapUpOE n (ExtQ.fin (q + 1)) := by
        rw [wrapUpOE]
        simp only [ExtQ.ltNegHalf, decide_eq_true_eq, if_pos h]
        rfl
      rw [hstep, ih (q + 1) (by push_cast at hq ⊢; linarith), wrapUpF, if_pos h]
    · rw [wrapUpF_of_ge _ q h, wrapUpOE]
      simp only [ExtQ.ltNegHalf, decide_eq_false h]
      rfl

/-- **C10**: the `wrapToBZ` loops terminate on every finite input — with
enough fuel the bounded loops finish and compute exactly `wrapScalar` —
while on an infinite component the first loop runs forever (`none` for
every fuel), so finiteness is a genuine precondition.  `expandToFullBZ`
only invokes `wrapScalar` through total structural recursion, so its
termination on finite k-point sets follows by construction. -/
theorem wrapToBZ_terminates :
    (∀ q : ℚ, ∃ n : ℕ, wrapOE n (ExtQ.fin q) = some (ExtQ.fin (wrapScalar q))) ∧
    (∀ n : ℕ, wrapOE n ExtQ.inf = none) := by
  constructor
  · intro q
    set d := wrapDownF (downFuel q) q with hd
    set N := max (downFuel q) (upFuel d) with hN
    refine ⟨N, ?_⟩
    have hN1 : downFuel q ≤ N := le_max_left _ _
    have hN2 : upFuel d ≤ N := le_max_right _ _
    have hq : q < 1/2 + N := by
      have := downFuel_spec q
      have hcast : ((downFuel q : ℕ) : ℚ) ≤ (N : ℚ) := by exact_mod_cast hN1
      linarith
    have hdq : -d < 1/2 + N := by
      have := upFuel_spec d
      have hcast : ((upFuel d : ℕ) : ℚ) ≤ (N : ℚ) := by exact_mod_cast hN2
      linarith
    rw [wrapOE, wrapDownOE_fin N q hq,
      wrapDownF_stable (downFuel q) N q (downFuel_spec q) hN1, ← hd]
    rw [Option.some_bind, wrapUpOE_fin N d hdq,
      wrapUpF_stable (upFuel d) N d (upFuel_spec d) hN2]
    rfl
  · intro n
    simp [wrapOE, wrapDownOE_inf]

/-- **C7**: the 8 trilinear corner weights of `findInterpolationCube` sum
to exactly 1 (so a fortiori within `1e-9` in floating point), for every
query point and positive grid size. -/
theorem findInterpolationCube_weights_sum (kx ky kz : ℚ) (kpLookup : KPLookup)
    (gridSize : ℤ) (h : 0 < gridSize) :
    ((findInterpolationCube kx ky kz kpLookup gridSize).2).sum = 1 := by
  simp only [findInterpolationCube, List.sum_cons, List.sum_nil]
  ring

/-- Witness for `findInterpolationCube_weights_sum` at a concrete query. -/
theorem findInterpolationCube_weights_sum_witness :
    ((findInterpolationCube (1/3) (1/5) (-(1/4)) [] 10).2).sum = 1 :=
  findInterpolationCube_weights_sum (1/3) (1/5) (-(1/4)) [] 10 (by norm_num)

/-- **C3**: `shiftToFermiLevel` returns a grid with `fermiEnergy = 0`,
unchanged dimensions, and every cell shifted by the old Fermi energy; the
transform is pure (the input grid is untouched — the embedding is
functional and the source allocates fresh arrays). -/
theorem shiftToFermiLevel_spec (g : EnergyGrid) (b i : ℕ) :
    (shiftToFermiLevel g).fermiEnergy = 0 ∧
    (shiftToFermiLevel g).nx = g.nx ∧ (shiftToFermiLevel g).ny = g.ny ∧
    (shiftToFermiLevel g).nz = g.nz ∧
    gridCell (shiftToFermiLevel g) b i =
      (gridCell g b i).map (fun v => v - g.fermiEnergy) := by
  refine ⟨rfl, rfl, rfl, rfl, ?_⟩
  simp only [gridCell, shiftToFermiLevel]
  rw [List.get?_map]
  cases hb : g.data.get? b with
  | none => rfl
  | some arr => simp [List.get?_map]

theorem ferFold_eq (lines : List String) : ∀ init : Option ℚ,
    lines.foldl (fun fermiEnergy line =>
      match ferMatch line with
      | none => fermiEnergy
      | some cap => jsParseFloat cap) init =
    match (lines.filterMap ferMatch).getLast? with
    | none => init
    | some cap => jsParseFloat cap := by
  induction lines with
  | nil => intro init; rfl
  | cons l rest ih =>
    intro init
    rw [List.foldl_cons, List.filterMap_cons]
    cases hm : ferMatch l with
    | none =>
      simp only [hm]
      exact ih init
    | some cap =>
      simp only [hm]
      rw [ih (jsParseFloat cap)]
      cases hfm : rest.filterMap ferMatch with
      | nil => simp
      | cons x xs =>
          cases hg : (x :: xs).getLast? with
          | none => simp at hg
          | some y => rw [List.getLast?_cons_cons, hg]

/-- **C6**: both Fermi-energy parsers return the `Ry → eV`-scaled value of
the last line matching the `:FER` record (its captured token, `parseFloat`ed
and multiplied by 13.605693122994), and 0 — not an error — when no line
matches. -/
theorem parseFermi_last_match (content : String) :
    ((splitLines content).filterMap ferMatch = [] →
      parseFermiFromScf content = some 0 ∧
      parseFermiFromOutput2 content = some 0) ∧
    (∀ cap : String, ((splitLines content).filterMap ferMatch).getLast? = some cap →
      parseFermiFromScf content = (jsParseFloat cap).map (fun v => v * RY_TO_EV) ∧
      parseFermiFromOutput2 content = (jsParseFloat cap).map (fun v => v * RY_TO_EV)) := by
  have h := ferFold_eq (splitLines content) (some 0)
  constructor
  · intro hnone
    rw [hnone] at h
    constructor
    · simp only [parseFermiFromScf, h]
      norm_num
    · simp only [parseFermiFromOutput2, h]
      norm_num
  · intro cap hcap
    rw [hcap] at h
    constructor
    · simp only [parseFermiFromScf, h]
    · simp only [parseFermiFromOutput2, h]

/-- Witness for `parseFermi_last_match`: a tagless log yields 0; a tagged
log yields the captured value times `RY_TO_EV`. -/
theorem parseFermi_last_match_witness :
    parseFermiFromScf "no tag here" = some 0 ∧
    parseFermiFromScf ":FER  : F E R M I - ENERGY(TETRAH.M.)=   0.49" =
      (jsParseFloat "0.49").map (fun v => v * RY_TO_EV) :=
  ⟨((parseFermi_last_match "no tag here").1 (by decide)).1,
   ((parseFermi_last_match _).2 "0.49" (by decide)).1⟩

theorem optFlag_iff (o : Option ℚ) (f : ℚ → Bool) :
    (match o with | none => false | some e => f e) = true ↔
      ∃ e, o = some e ∧ f e = true := by
  cases o <;> simp

theorem rowFlags_foldl (b : ℕ) (ef : ℚ) (rows : List (List ℚ)) :
    ∀ s : Bool × Bool,
    rows.foldl (fun flags row =>
      match row.get? b with
      | none => flags
      | some e => (flags.1 || decide (ef < e), flags.2 || decide (e < ef))) s =
    (s.1 || rows.any (fun row =>
        match row.get? b with | none => false | some e => decide (ef < e)),
     s.2 || rows.any (fun row =>
        match row.get? b with | none => false | some e => decide (e < ef))) := by
  induction rows with
  | nil => intro s; simp
  | cons r rs ih =>
    intro s
    rw [List.foldl_cons, List.any_cons, List.any_cons]
    cases hr : r.get? b with
    | none =>
      simp only [hr, ih]
      simp
    | some e =>
      simp only [hr, ih]
      simp [Bool.or_assoc]

theorem rowFlags_fst (rows : List (List ℚ)) (b : ℕ) (ef : ℚ) :
    (rowFlags rows b ef).1 = rows.any (fun row =>
      match row.get? b with | none => false | some e => decide (ef < e)) := by
  rw [rowFlags, rowFlags_foldl]
  simp

theorem rowFlags_snd (rows : List (List ℚ)) (b : ℕ) (ef : ℚ) :
    (rowFlags rows b ef).2 = rows.any (fun row =>
      match row.get? b with | none => false | some e => decide (e < ef)) := by
  rw [rowFlags, rowFlags_foldl]
  simp

theorem crossingFlags_eq (kps : List IrreducibleKPoint) (b : ℕ) (ef : ℚ) :
    crossingFlags kps b ef = rowFlags (kps.map IrreducibleKPoint.energies) b ef := by
  rw [crossingFlags, rowFlags, List.foldl_map]

theorem foldl_filter_append (p : ℕ → Bool) (l : List ℕ) :
    ∀ acc : List ℕ,
    l.foldl (fun acc b => if p b then acc ++ [b] else acc) acc =
      acc ++ l.filter p := by
  induction l with
  | nil => intro acc; simp
  | cons x xs ih =>
    intro acc
    rw [List.foldl_cons]
    by_cases hp : p x
    · rw [if_pos hp, ih, List.filter_cons_of_pos hp, List.append_assoc]
      rfl
    · rw [if_neg hp, ih, List.filter_cons_of_neg hp]

theorem findFermiCrossingBandsFromGrid_eq (rows : List (List ℚ)) (ef : ℚ) :
    findFermiCrossingBandsFromGrid rows ef =
      (List.range ((rows.headD []).length)).filter
        (fun b => (rowFlags rows b ef).1 && (rowFlags rows b ef).2) := by
  cases rows with
  | nil => simp [findFermiCrossingBandsFromGrid]
  | cons first rest =>
    simp only [findFermiCrossingBandsFromGrid, List.headD_cons]
    rw [foldl_filter_append]
    simp

theorem findFermiCrossingBands_eq (d : FermiSurfaceRawData) :
    findFermiCrossingBands d =
      (List.range d.numBands).filter (fun b =>
        (crossingFlags d.kPoints b d.fermiEnergy).1 &&
        (crossingFlags d.kPoints b d.fermiEnergy).2) := by
  simp only [findFermiCrossingBands]
  rw [foldl_filter_append]
  simp

theorem crossingMem_aux (rows : List (List ℚ)) (ef : ℚ) (n : ℕ)
    (hlen : ∀ row ∈ rows, row.length ≤ n) (b : ℕ) :
    b ∈ (List.range n).filter
        (fun b => (rowFlags rows b ef).1 && (rowFlags rows b ef).2) ↔
      (∃ row ∈ rows, ∃ e, row.get? b = some e ∧ ef < e) ∧
      (∃ row ∈ rows, ∃ e, row.get? b = some e ∧ e < ef) := by
  simp only [List.mem_filter, List.mem_range, Bool.and_eq_true, rowFlags_fst,
    rowFlags_snd, List.any_eq_true, optFlag_iff, decide_eq_true_eq]
  constructor
  · rintro ⟨-, h1, h2⟩
    exact ⟨h1, h2⟩
  · rintro ⟨⟨row, hrow, e, he, hlt⟩, h2⟩
    have hblen : b < row.length := by
      by_contra hcon
      push_neg at hcon
      rw [List.get?_eq_none.2 hcon] at he
      cases he
    exact ⟨lt_of_lt_of_le hblen (hlen row hrow), ⟨row, hrow, e, he, hlt⟩, h2⟩

/-- **C2** (amended): provided the declared band count bounds every
sample row (raw-data variant) and no row is longer than the first row
(grid variant), both crossing filters return exactly the band indices
with at least one sample strictly above and one strictly below the Fermi
energy, in ascending order. -/
theorem fermiCrossing_exact :
    (∀ d : FermiSurfaceRawData,
      (∀ kp ∈ d.kPoints, kp.energies.length ≤ d.numBands) →
      (∀ b : ℕ, b ∈ findFermiCrossingBands d ↔
        (∃ kp ∈ d.kPoints, ∃ e, kp.energies.get? b = some e ∧ d.fermiEnergy < e) ∧
        (∃ kp ∈ d.kPoints, ∃ e, kp.energies.get? b = some e ∧ e < d.fermiEnergy)) ∧
      (findFermiCrossingBands d).Sorted (· < ·)) ∧
    (∀ (rows : List (List ℚ)) (ef : ℚ),
      (∀ row ∈ rows, row.length ≤ (rows.headD []).length) →
      (∀ b : ℕ, b ∈ findFermiCrossingBandsFromGrid rows ef ↔
        (∃ row ∈ rows, ∃ e, row.get? b = some e ∧ ef < e) ∧
        (∃ row ∈ rows, ∃ e, row.get? b = some e ∧ e < ef)) ∧
      (findFermiCrossingBandsFromGrid rows ef).Sorted (· < ·)) := by
  constructor
  · intro d hbound
    have hbound' : ∀ row ∈ d.kPoints.map IrreducibleKPoint.energies,
        row.length ≤ d.numBands := by
      intro row hrow
      obtain ⟨kp, hkp, rfl⟩ := List.mem_map.mp hrow
      exact hbound kp hkp
    constructor
    · intro b
      rw [findFermiCrossingBands_eq]
      simp only [crossingFlags_eq]
      rw [crossingMem_aux _ d.fermiEnergy d.numBands hbound' b]
      simp only [List.mem_map]
      constructor
      · rintro ⟨⟨row, ⟨kp, hkp, rfl⟩, hrest⟩, ⟨row2, ⟨kp2, hkp2, rfl⟩, hrest2⟩⟩
        exact ⟨⟨kp, hkp, hrest⟩, ⟨kp2, hkp2, hrest2⟩⟩
      · rintro ⟨⟨kp, hkp, hrest⟩, ⟨kp2, hkp2, hrest2⟩⟩
        exact ⟨⟨kp.energies, ⟨kp, hkp, rfl⟩, hrest⟩,
          ⟨kp2.energies, ⟨kp2, hkp2, rfl⟩, hrest2⟩⟩
    · rw [findFermiCrossingBands_eq]
      exact (List.sorted_lt_range _).filter _
  · intro rows ef hbound
    constructor
    · intro b
      rw [findFermiCrossingBandsFromGrid_eq]
      exact crossingMem_aux rows ef _ hbound b
    · rw [findFermiCrossingBandsFromGrid_eq]
      exact (List.sorted_lt_range _).filter _

/-- Counterexample to **C2** as stated: on the ragged table
`[[5], [-1, -1], [1, 1]]` with Fermi energy 0, band 1 has a sample above
and a sample below the Fermi level, yet `findFermiCrossingBandsFromGrid`
does not return it (it only scans indices below the first row's length). -/
theorem fermiCrossing_counterexample :
    (∃ row ∈ ([[5], [-1, -1], [1, 1]] : List (List ℚ)),
      ∃ e, row.get? 1 = some e ∧ (0 : ℚ) < e) ∧
    (∃ row ∈ ([[5], [-1, -1], [1, 1]] : List (List ℚ)),
      ∃ e, row.get? 1 = some e ∧ e < (0 : ℚ)) ∧
    1 ∉ findFermiCrossingBandsFromGrid [[5], [-1, -1], [1, 1]] 0 := by
  refine ⟨⟨[1, 1], by simp, 1, rfl, by norm_num⟩,
    ⟨[-1, -1], by simp, -1, rfl, by norm_num⟩, ?_⟩
  decide

/-- Witness for `fermiCrossing_exact` on concrete inputs. -/
theorem fermiCrossing_exact_witness :
    (1 ∈ findFermiCrossingBandsFromGrid [[1, -1], [-1, 2]] 0 ↔
      (∃ row ∈ ([[1, -1], [-1, 2]] : List (List ℚ)),
        ∃ e, row.get? 1 = some e ∧ (0 : ℚ) < e) ∧
      (∃ row ∈ ([[1, -1], [-1, 2]] : List (List ℚ)),
        ∃ e, row.get? 1 = some e ∧ e < (0 : ℚ))) ∧
    (findFermiCrossingBandsFromGrid [[1, -1], [-1, 2]] 0).Sorted (· < ·) :=
  ⟨(fermiCrossing_exact.2 [[1, -1], [-1, 2]] 0 (by decide)).1 1,
   (fermiCrossing_exact.2 [[1, -1], [-1, 2]] 0 (by decide)).2⟩

theorem applySymmetry_identity (k : KVec) (op : SymmetryMatrix)
    (hop : op.rotation = identityRotation) : applySymmetryToKPoint k op = k := by
  ext <;> simp [applySymmetryToKPoint, hop, identityRotation, rotEntry]

theorem wrapToBZ_of_mem (k : KVec)
    (hx1 : -(1/2) ≤ k.kx) (hx2 : k.kx < 1/2)
    (hy1 : -(1/2) ≤ k.ky) (hy2 : k.ky < 1/2)
    (hz1 : -(1/2) ≤ k.kz) (hz2 : k.kz < 1/2) : wrapToBZ k = k := by
  ext
  · exact wrapScalar_of_mem _ hx1 hx2
  · exact wrapScalar_of_mem _ hy1 hy2
  · exact wrapScalar_of_mem _ hz1 hz2

theorem kPointsEquivalent_comm (a b : KVec) (tol : ℚ) :
    kPointsEquivalent a b tol = kPointsEquivalent b a tol := by
  simp only [kPointsEquivalent]
  rw [abs_sub_comm (wrapToBZ a).kx (wrapToBZ b).kx,
    abs_sub_comm (wrapToBZ a).ky (wrapToBZ b).ky,
    abs_sub_comm (wrapToBZ a).kz (wrapToBZ b).kz]

theorem identityExpansion_length : ∀ (i : ℕ) (pts : List IrreducibleKPoint),
    (identityExpansion i pts).length = pts.length
  | _, [] => rfl
  | i, _ :: rest => by
      simp [identityExpansion, identityExpansion_length (i + 1) rest]

theorem identityExpansion_get? : ∀ (pts : List IrreducibleKPoint) (i j : ℕ),
    (identityExpansion i pts).get? j =
      (pts.get? j).map (fun p => ⟨p.kx, p.ky, p.kz, 1, p.energies, i + j⟩) := by
  intro pts
  induction pts with
  | nil => intro i j; simp [identityExpansion]
  | cons p rest ih =>
    intro i j
    cases j with
    | zero => rfl
    | succ j =>
      simp only [identityExpansion, List.get?_cons_succ, ih (i + 1) j]
      have : i + 1 + j = i + (j + 1) := by omega
      rw [this]

theorem expandOuter_identity (op : SymmetryMatrix)
    (hop : op.rotation = identityRotation) (tol : ℚ) :
    ∀ (pts : List IrreducibleKPoint) (i : ℕ) (st : ExpandState),
    (∀ p ∈ pts, -(1/2) ≤ p.kx ∧ p.kx < 1/2 ∧ -(1/2) ≤ p.ky ∧ p.ky < 1/2 ∧
      -(1/2) ≤ p.kz ∧ p.kz < 1/2) →
    List.Pairwise (fun p q =>
      kPointsEquivalent ⟨p.kx, p.ky, p.kz⟩ ⟨q.kx, q.ky, q.kz⟩ tol = false) pts →
    (∀ p ∈ pts, ∀ s ∈ st.seen,
      kPointsEquivalent ⟨p.kx, p.ky, p.kz⟩ s tol = false) →
    expandOuter [op] tol i pts st =
      ⟨st.expanded ++ identityExpansion i pts,
       st.seen ++ pts.map (fun p => ⟨p.kx, p.ky, p.kz⟩)⟩ := by
  intro pts
  induction pts with
  | nil =>
    intro i st _ _ _
    simp [expandOuter, identityExpansion]
  | cons p rest ih =>
    intro i st hin hpw hseen
    obtain ⟨hx1, hx2, hy1, hy2, hz1, hz2⟩ := hin p (List.mem_cons_self p rest)
    have hwrap : wrapToBZ (applySymmetryToKPoint ⟨p.kx, p.ky, p.kz⟩ op) =
        ⟨p.kx, p.ky, p.kz⟩ := by
      rw [applySymmetry_identity _ op hop]
      exact wrapToBZ_of_mem _ hx1 hx2 hy1 hy2 hz1 hz2
    have hany : st.seen.any
        (fun s => kPointsEquivalent ⟨p.kx, p.ky, p.kz⟩ s tol) = false := by
      rw [List.any_eq_false]
      intro s hs
      simp [hseen p (List.mem_cons_self p rest) s hs]
    have hstep : expandStep tol i p st op =
        ⟨st.expanded ++ [⟨p.kx, p.ky, p.kz, 1, p.energies, i⟩],
         st.seen ++ [⟨p.kx, p.ky, p.kz⟩]⟩ := by
      simp only [expandStep, hwrap, hany]
      rfl
    have hrest := (List.pairwise_cons.mp hpw).2
    have hhead := (List.pairwise_cons.mp hpw).1
    rw [show expandOuter [op] tol i (p :: rest) st =
        expandOuter [op] tol (i + 1) rest (expandStep tol i p st op) from rfl,
      hstep, ih (i + 1) _ (fun q hq => hin q (List.mem_cons_of_mem _ hq)) hrest ?_]
    · simp [identityExpansion, List.append_assoc]
    · intro q hq s hs
      rcases List.mem_append.mp hs with hs1 | hs2
      · exact hseen q (List.mem_cons_of_mem _ hq) s hs1
      · rw [List.mem_singleton.mp hs2, kPointsEquivalent_comm]
        exact hhead q hq

/-- **C1** (amended): when every irreducible coordinate already lies in
`[-0.5, 0.5)` and no two input points are equivalent under the periodic
tolerance test, `expandToFullBZ` with a single identity rotation returns
exactly the input list: same length and, per index, the same coordinates
and energies.  (The in-range and distinctness hypotheses are forced by the
counterexample `expandToFullBZ_identity_counterexample`.) -/
theorem expandToFullBZ_identity (pts : List IrreducibleKPoint)
    (op : SymmetryMatrix) (tol : ℚ) (hop : op.rotation = identityRotation)
    (hin : ∀ p ∈ pts, -(1/2) ≤ p.kx ∧ p.kx < 1/2 ∧ -(1/2) ≤ p.ky ∧
      p.ky < 1/2 ∧ -(1/2) ≤ p.kz ∧ p.kz < 1/2)
    (hpw : List.Pairwise (fun p q =>
      kPointsEquivalent ⟨p.kx, p.ky, p.kz⟩ ⟨q.kx, q.ky, q.kz⟩ tol = false) pts) :
    (expandToFullBZ pts [op] tol).length = pts.length ∧
    ∀ j : ℕ, ((expandToFullBZ pts [op] tol).get? j).map
        (fun q => (q.kx, q.ky, q.kz, q.energies)) =
      (pts.get? j).map (fun p => (p.kx, p.ky, p.kz, p.energies)) := by
  have h := expandOuter_identity op hop tol pts 0 ⟨[], []⟩ hin hpw
    (by intro p _ s hs; cases hs)
  have hexp : expandToFullBZ pts [op] tol = identityExpansion 0 pts := by
    rw [expandToFullBZ, h]
    simp
  constructor
  · rw [hexp, identityExpansion_length]
  · intro j
    rw [hexp, identityExpansion_get?]
    cases pts.get? j <;> rfl

/-- Counterexample to **C1** as stated: for the boundary point
`(0.5, 0, 0)` the identity expansion returns `kx = -0.5 ≠ 0.5` (the wrap
moves the boundary coordinate), and a duplicated input point is dropped,
so the expansion does not always reproduce the input list. -/
theorem expandToFullBZ_identity_counterexample :
    ((expandToFullBZ [⟨1/2, 0, 0, 1, [1]⟩] [⟨identityRotation, [0, 0, 0]⟩]
        (1/1000000)).map ExpandedKPoint.kx = [-(1/2)] ∧
      (1/2 : ℚ) ≠ -(1/2)) ∧
    (expandToFullBZ [⟨0, 0, 0, 1, [1]⟩, ⟨0, 0, 0, 1, [1]⟩]
        [⟨identityRotation, [0, 0, 0]⟩] (1/1000000)).length ≠ 2 := by
  decide

/-- Witness for `expandToFullBZ_identity` on two concrete in-range,
distinct points. -/
theorem expandToFullBZ_identity_witness :
    (expandToFullBZ [⟨0, 0, 0, 1, [2]⟩, ⟨1/4, 0, 0, 2, [3]⟩]
        [⟨identityRotation, [0, 0, 0]⟩] (1/1000000)).length = 2 ∧
    ∀ j : ℕ, ((expandToFullBZ [⟨0, 0, 0, 1, [2]⟩, ⟨1/4, 0, 0, 2, [3]⟩]
        [⟨identityRotation, [0, 0, 0]⟩] (1/1000000)).get? j).map
        (fun q => (q.kx, q.ky, q.kz, q.energies)) =
      (([⟨0, 0, 0, 1, [2]⟩, ⟨1/4, 0, 0, 2, [3]⟩] :
        List IrreducibleKPoint).get? j).map
        (fun p => (p.kx, p.ky, p.kz, p.energies)) :=
  expandToFullBZ_identity _ _ _ rfl (by decide) (by decide)

theorem structScan_none : ∀ (ls : List String) (i : ℕ) (lat : LatticeParameters),
    (∀ l ∈ ls, symHeaderMatch l = none) → (structScan i lat ls).2 = none := by
  intro ls
  induction ls with
  | nil => intro i lat _; rfl
  | cons l rest ih =>
    intro i lat h
    simp only [structScan, h l (List.mem_cons_self l rest)]
    exact ih (i + 1) _ (fun l' hl' => h l' (List.mem_cons_of_mem _ hl'))

/-- **C5** (amended): `parseOutputkgen` reports its typed errors exactly at
the two structural anchors — an unusable mesh-division header (given that
the reciprocal-vector scan returned) and fewer than `nx·ny·nz` valid
relation rows — while `parseStruct` does NOT abort when the
symmetry-operation-count header is absent (it returns normally with an
empty operation list; the embedding is total because the source has no
`throw` in `parseStruct`), and malformed individual relation lines are
skipped without aborting. -/
theorem parserAnchors_amended :
    (∀ (content : String) (recip : List (List ℚ)),
      gvecScan (splitLines content) = some recip →
      ((divisionScan (splitLines content)).1 = 0 ∨
       (divisionScan (splitLines content)).2.1 = 0 ∨
       (divisionScan (splitLines content)).2.2 = 0) →
      parseOutputkgen content = .error .missingDimensions) ∧
    (∀ (content : String) (recip : List (List ℚ)) (nx ny nz : ℤ),
      gvecScan (splitLines content) = some recip →
      divisionScan (splitLines content) = (nx, ny, nz) →
      nx ≠ 0 → ny ≠ 0 → nz ≠ 0 →
      ((collectEntries (nx * ny * nz) (relationLines (splitLines content))
        []).length : ℤ) < nx * ny * nz →
      parseOutputkgen content = .error (.insufficientEntries (nx * ny * nz)
        (collectEntries (nx * ny * nz) (relationLines (splitLines content))
          []).length)) ∧
    (∀ content : String,
      (∀ l ∈ splitLines content, symHeaderMatch l = none) →
      (parseStruct content).symmetryOps = []) ∧
    (∀ (totalPoints : ℤ) (l : String) (rest : List String)
        (acc : List KgenEntry), entryOfLine l = none →
      collectEntries totalPoints (l :: rest) acc =
        collectEntries totalPoints rest acc) := by
  refine ⟨?_, ?_, ?_, ?_⟩
  · intro content recip hg hz
    unfold parseOutputkgen
    simp only []
    rw [hg]
    exact if_pos hz
  · intro content recip nx ny nz hg hdims hnx hny hnz hcount
    unfold parseOutputkgen
    simp only [hg, hdims]
    rw [if_neg (by simp [hnx, hny, hnz])]
    exact if_pos hcount
  · intro content h
    have hsc := structScan_none (splitLines content) 0 defaultLattice h
    unfold parseStruct
    simp only []
    cases hscan : structScan 0 defaultLattice (splitLines content) with
    | mk lat o =>
      rw [hscan] at hsc
      simp only at hsc
      subst hsc
      rfl
  · intro totalPoints l rest acc he
    by_cases hlt : (acc.length : ℤ) < totalPoints
    · simp only [collectEntries, he, if_pos hlt]
    · rw [collectEntries, if_neg hlt]
      cases rest with
      | nil => rfl
      | cons r rs => rw [collectEntries, if_neg hlt]

/-- Counterexample to **C5** as stated: on an input with no
symmetry-operation-count header, `parseStruct` does not abort — it returns
normally with an empty symmetry-operation list and the default lattice
parameters (the source has no `throw` anywhere in `parseStruct`). -/
theorem parseStruct_missing_header_counterexample :
    parseStruct "hello" = ⟨[], defaultLattice⟩ := by
  decide

/-- Witness for `parserAnchors_amended` on concrete inputs: a file with no
division marker gives the typed missing-dimensions error; a division
marker announcing 2×2×2 with no relation rows gives the typed
insufficient-entries error; a header-less struct file yields no symmetry
operations; an invalid relation line is skipped. -/
theorem parserAnchors_amended_witness :
    parseOutputkgen "nothing here" = .error .missingDimensions ∧
    parseOutputkgen " DIVISION OF RECIPROCAL LATTICE VECTORS:  1  1  1" =
      .error (.insufficientEntries (2 * 2 * 2)
        (collectEntries (2 * 2 * 2) (relationLines (splitLines
          " DIVISION OF RECIPROCAL LATTICE VECTORS:  1  1  1")) []).length) ∧
    (parseStruct "hello").symmetryOps = [] ∧
    collectEntries 5 ["bad line"] [] = collectEntries 5 [] [] :=
  ⟨parserAnchors_amended.1 "nothing here" [] (by decide) (by decide),
   parserAnchors_amended.2.1 " DIVISION OF RECIPROCAL LATTICE VECTORS:  1  1  1"
      [] 2 2 2 (by decide) (by decide) (by decide) (by decide) (by decide)
      (by decide),
   parserAnchors_amended.2.2.1 "hello" (by decide),
   parserAnchors_amended.2.2.2 5 "bad line" [] [] (by decide)⟩

/-- **C9**: the modelled `marchingCubes` is total — it returns an
`IsosurfaceMesh` for every grid, band and isovalue (the embedding has no
failure path, matching "never raises") — and when no cell edge crosses the
isovalue the mesh is empty (vertex count 0 and no positions), a success
value rather than a failure. -/
theorem marchingCubes_empty_when_no_crossing (grid : EnergyGrid)
    (isoValue : ℚ) (b : ℕ)
    (h : ∀ cell ∈ mcCells grid, mcCrossedEdges grid isoValue b cell = []) :
    (marchingCubes grid isoValue b).vertexCount = 0 ∧
    (marchingCubes grid isoValue b).positions = [] := by
  have hv : (mcCells grid).flatMap (fun cell =>
      (mcCrossedEdges grid isoValue b cell).map
        (fun e => mcEdgeVertex grid isoValue b cell e)) = [] := by
    rw [List.flatMap_eq_nil_iff]
    intro cell hcell
    rw [h cell hcell]
    rfl
  constructor
  · show ((mcCells grid).flatMap _).length = 0
    rw [hv]
    rfl
  · show (mcCells grid).flatMap _ = []
    exact hv

/-- Witness for `marchingCubes_empty_when_no_crossing`: a 1×1×1 grid whose
only value is below the isovalue produces the empty mesh. -/
theorem marchingCubes_empty_witness :
    (marchingCubes ⟨1, 1, 1, [[-1]], 0⟩ 0 0).vertexCount = 0 ∧
    (marchingCubes ⟨1, 1, 1, [[-1]], 0⟩ 0 0).positions = [] :=
  marchingCubes_empty_when_no_crossing ⟨1, 1, 1, [[-1]], 0⟩ 0 0 (by decide)

theorem pxWrap (a : ℤ) (n : ℕ) (ha : 0 ≤ a) (hn : 0 < n) :
    ((a.tmod n) + n).tmod n = a % n := by
  have hn' : (0 : ℤ) < n := by exact_mod_cast hn
  rw [Int.tmod_eq_emod ha hn'.le]
  have h2 : (0 : ℤ) ≤ a % n + n := add_nonneg (Int.emod_nonneg a hn'.ne') hn'.le
  rw [Int.tmod_eq_emod h2 hn'.le]
  conv_lhs => rw [show a % (n : ℤ) + (n : ℤ) = a % (n : ℤ) + (n : ℤ) * 1 by ring]
  rw [Int.add_mul_emod_self_left, Int.emod_emod_of_dvd _ dvd_rfl]

theorem getGridValue_isSome (g : EnergyGrid) (b : ℕ) (arr : List ℚ)
    (hb : g.data.get? b = some arr) (hlen : arr.length = g.nx * g.ny * g.nz)
    (hx : 0 < g.nx) (hy : 0 < g.ny) (hz : 0 < g.nz)
    (a c d : ℤ) (ha : 0 ≤ a) (hc : 0 ≤ c) (hd : 0 ≤ d) :
    ∃ v, getGridValue g b a c d = some v := by
  unfold getGridValue
  rw [if_neg (by omega)]
  have hnx : (0 : ℤ) < g.nx := by exact_mod_cast hx
  have hny : (0 : ℤ) < g.ny := by exact_mod_cast hy
  have hnz : (0 : ℤ) < g.nz := by exact_mod_cast hz
  rw [pxWrap a g.nx ha hx, pxWrap c g.ny hc hy, pxWrap d g.nz hd hz]
  have hpx0 : 0 ≤ a % (g.nx : ℤ) := Int.emod_nonneg a hnx.ne'
  have hpy0 : 0 ≤ c % (g.ny : ℤ) := Int.emod_nonneg c hny.ne'
  have hpz0 : 0 ≤ d % (g.nz : ℤ) := Int.emod_nonneg d hnz.ne'
  have hpx1 : a % (g.nx : ℤ) < g.nx := Int.emod_lt_of_pos a hnx
  have hpy1 : c % (g.ny : ℤ) < g.ny := Int.emod_lt_of_pos c hny
  have hpz1 : d % (g.nz : ℤ) < g.nz := Int.emod_lt_of_pos d hnz
  set idx : ℤ :=
    a % (g.nx : ℤ) + c % (g.ny : ℤ) * g.nx + d % (g.nz : ℤ) * g.nx * g.ny
    with hidx
  have hidx0 : 0 ≤ idx := by positivity
  have hidxlt : idx < (g.nx : ℤ) * g.ny * g.nz := by
    have e1 : (c % (g.ny : ℤ) + 1) * g.nx ≤ (g.ny : ℤ) * g.nx :=
      mul_le_mul_of_nonneg_right (by linarith) hnx.le
    have e2 : (d % (g.nz : ℤ) + 1) * ((g.nx : ℤ) * g.ny) ≤
        (g.nz : ℤ) * ((g.nx : ℤ) * g.ny) :=
      mul_le_mul_of_nonneg_right (by linarith) (by positivity)
    rw [hidx]
    nlinarith [hpx1, e1, e2]
  rw [if_pos hidx0, hb, Option.some_bind]
  have hlt : idx.toNat < arr.length := by
    rw [hlen]
    have hcast : (idx.toNat : ℤ) < ((g.nx * g.ny * g.nz : ℕ) : ℤ) := by
      rw [Int.toNat_of_nonneg hidx0]
      push_cast
      linarith
    exact_mod_cast hcast
  exact ⟨arr.get ⟨idx.toNat, hlt⟩, List.get?_eq_get hlt⟩

/-- **C8**: sampling the grid with `sampleGridEnergy` exactly at the
lattice k-point `(ix/nx - 0.5, iy/ny - 0.5, iz/nz - 0.5)` of an in-range
cell returns precisely the stored cell value `getGridValue(grid, b, ix,
iy, iz)` — exact over the rationals, hence within float tolerance. -/
theorem sampleGridEnergy_lattice (g : EnergyGrid) (b ix iy iz : ℕ)
    (arr : List ℚ) (hb : g.data.get? b = some arr)
    (hlen : arr.length = g.nx * g.ny * g.nz)
    (hx : ix < g.nx) (hy : iy < g.ny) (hz : iz < g.nz) :
    sampleGridEnergy g b ((ix : ℚ) / g.nx - 1/2) ((iy : ℚ) / g.ny - 1/2)
      ((iz : ℚ) / g.nz - 1/2) = getGridValue g b ix iy iz := by
  have hx0 : 0 < g.nx := by omega
  have hy0 : 0 < g.ny := by omega
  have hz0 : 0 < g.nz := by omega
  have hnxQ : ((g.nx : ℚ)) ≠ 0 := (Nat.cast_pos.mpr hx0).ne'
  have hnyQ : ((g.ny : ℚ)) ≠ 0 := (Nat.cast_pos.mpr hy0).ne'
  have hnzQ : ((g.nz : ℚ)) ≠ 0 := (Nat.cast_pos.mpr hz0).ne'
  have hgx : ((ix : ℚ) / g.nx - 1/2 + 1/2) * g.nx = ((ix : ℕ) : ℚ) := by
    field_simp
    ring
  have hgy : ((iy : ℚ) / g.ny - 1/2 + 1/2) * g.ny = ((iy : ℕ) : ℚ) := by
    field_simp
    ring
  have hgz : ((iz : ℚ) / g.nz - 1/2 + 1/2) * g.nz = ((iz : ℕ) : ℚ) := by
    field_simp
    ring
  obtain ⟨v000, h000⟩ := getGridValue_isSome g b arr hb hlen hx0 hy0 hz0
    (ix : ℤ) (iy : ℤ) (iz : ℤ) (by positivity) (by positivity) (by positivity)
  obtain ⟨v100, h100⟩ := getGridValue_isSome g b arr hb hlen hx0 hy0 hz0
    ((ix : ℤ) + 1) (iy : ℤ) (iz : ℤ) (by positivity) (by positivity) (by positivity)
  obtain ⟨v010, h010⟩ := getGridValue_isSome g b arr hb hlen hx0 hy0 hz0
    (ix : ℤ) ((iy : ℤ) + 1) (iz : ℤ) (by positivity) (by positivity) (by positivity)
  obtain ⟨v110, h110⟩ := getGridValue_isSome g b arr hb hlen hx0 hy0 hz0
    ((ix : ℤ) + 1) ((iy : ℤ) + 1) (iz : ℤ) (by positivity) (by positivity) (by positivity)
  obtain ⟨v001, h001⟩ := getGridValue_isSome g b arr hb hlen hx0 hy0 hz0
    (ix : ℤ) (iy : ℤ) ((iz : ℤ) + 1) (by positivity) (by positivity) (by positivity)
  obtain ⟨v101, h101⟩ := getGridValue_isSome g b arr hb hlen hx0 hy0 hz0
    ((ix : ℤ) + 1) (iy : ℤ) ((iz : ℤ) + 1) (by positivity) (by positivity) (by positivity)
  obtain ⟨v011, h011⟩ := getGridValue_isSome g b arr hb hlen hx0 hy0 hz0
    (ix : ℤ) ((iy : ℤ) + 1) ((iz : ℤ) + 1) (by positivity) (by positivity) (by positivity)
  obtain ⟨v111, h111⟩ := getGridValue_isSome g b arr hb hlen hx0 hy0 hz0
    ((ix : ℤ) + 1) ((iy : ℤ) + 1) ((iz : ℤ) + 1) (by positivity) (by positivity) (by positivity)
  simp only [sampleGridEnergy, hgx, hgy, hgz, Int.floor_natCast,
    Int.cast_natCast, sub_self, h000, h100, h010, h110, h001, h101, h011,
    h111, Option.some_bind]
  norm_num

/-- Witness for `sampleGridEnergy_lattice` on a concrete 1×1×1 grid. -/
theorem sampleGridEnergy_lattice_witness :
    sampleGridEnergy ⟨1, 1, 1, [[5]], 0⟩ 0 ((0 : ℚ) / 1 - 1/2)
      ((0 : ℚ) / 1 - 1/2) ((0 : ℚ) / 1 - 1/2) =
      getGridValue ⟨1, 1, 1, [[5]], 0⟩ 0 0 0 0 := by
  have h := sampleGridEnergy_lattice ⟨1, 1, 1, [[5]], 0⟩ 0 0 0 0 [5] rfl rfl
    (by decide) (by decide) (by decide)
  simpa using h
